import Mathlib

set_option maxHeartbeats 1000000
set_option linter.unusedVariables false

/-!
Shallow embedding of the `dna` crate (src/dna/src/lib.rs).

Rust `char` is modelled by its Unicode codepoint as a `Nat`; Rust `String`
by a list of codepoints; `Vec<u8>` by a list of `Nat`; fallible operations
by `Except`, whose error payload is the payload of `ParseNucError`.

The `PackedDna` part of the source is an unfinished sketch that does not
compile as Rust.  The embedding keeps its visible data flow exactly as
written (one code byte per nucleotide, the whole uppercased string as the
parse-error payload, in-place assignment to `self.DNA` in `from_iterator`)
and repairs only what the surrounding types force: `from_str` wraps its
accumulated vector in the struct and returns the error it constructs, the
in-place mutation of `from_iterator` is modelled by returning the
post-state of the receiver, and the out-of-bounds vector index as well as
the missing arms of the byte match in `get` (both panics) are modelled by
`Option.none`.
-/

/-- `char::to_ascii_uppercase` / the per-character action of
`str::to_ascii_uppercase`: ASCII letters a-z map to A-Z, every other
codepoint is unchanged. -/
def toAsciiUppercase (c : Nat) : Nat :=
  if 97 ≤ c ∧ c ≤ 122 then c - 32 else c

/-- `str::to_ascii_uppercase`, character by character. -/
def toAsciiUppercaseStr (s : List Nat) : List Nat :=
  s.map toAsciiUppercase

/-- The nucleotide enum `Nuc` (src/dna/src/lib.rs:20-29). -/
inductive Nuc where
  | A
  | C
  | G
  | T
deriving DecidableEq

/-- `<Nuc as TryFrom<char>>::try_from` (src/dna/src/lib.rs:39-47): match on
the ASCII-uppercased character ('A' = 65, 'C' = 67, 'G' = 71, 'T' = 84);
the error carries the original, unmodified character. -/
def nucTryFromChar (value : Nat) : Except Nat Nuc :=
  if toAsciiUppercase value = 65 then .ok .A
  else if toAsciiUppercase value = 67 then .ok .C
  else if toAsciiUppercase value = 71 then .ok .G
  else if toAsciiUppercase value = 84 then .ok .T
  else .error value

/-- `PackedDna` (src/dna/src/lib.rs:65-67): its single field is the byte
vector `DNA`, holding one 0-3 code per nucleotide. -/
structure PackedDna where
  DNA : List Nat
deriving DecidableEq

/-- The loop of `<PackedDna as FromStr>::from_str`
(src/dna/src/lib.rs:75-83): scan the uppercased characters left to right,
pushing the code of each valid one; on the first invalid character the
error constructed is `ParseNucError(upper)`, carrying the entire
uppercased input string. -/
def fromStrLoop (upper : List Nat) (chars : List Nat) (v : List Nat) :
    Except (List Nat) (List Nat) :=
  match chars with
  | [] => .ok v
  | c :: rest =>
    if c = 65 then fromStrLoop upper rest (v ++ [0])
    else if c = 67 then fromStrLoop upper rest (v ++ [1])
    else if c = 71 then fromStrLoop upper rest (v ++ [2])
    else if c = 84 then fromStrLoop upper rest (v ++ [3])
    else .error upper

/-- `<PackedDna as FromStr>::from_str` (src/dna/src/lib.rs:72-85):
uppercase the whole input, then run the scanning loop; on success the
accumulated code vector becomes the `DNA` field. -/
def PackedDna.from_str (s : List Nat) : Except (List Nat) PackedDna :=
  (fromStrLoop (toAsciiUppercaseStr s) (toAsciiUppercaseStr s) []).map PackedDna.mk

/-- The encoding loop shared by `from_iterator` (src/dna/src/lib.rs:91-98):
push the 0-3 code of each nucleotide in arrival order. -/
def nucEncodeLoop (iter : List Nuc) (v : List Nat) : List Nat :=
  match iter with
  | [] => v
  | .A :: rest => nucEncodeLoop rest (v ++ [0])
  | .C :: rest => nucEncodeLoop rest (v ++ [1])
  | .G :: rest => nucEncodeLoop rest (v ++ [2])
  | .T :: rest => nucEncodeLoop rest (v ++ [3])

/-- `PackedDna::from_iterator` (src/dna/src/lib.rs:89-100): encodes the
input and assigns the result to `self.DNA`, mutating the receiver in
place; the mutation is modelled by returning the receiver's post-state. -/
def PackedDna.from_iterator (self : PackedDna) (iter : List Nuc) : PackedDna :=
  PackedDna.mk (nucEncodeLoop iter [])

/-- The byte decode match of `PackedDna::get` (src/dna/src/lib.rs:105-110);
the match has no arm for bytes above 3, modelled by `none`. -/
def decodeByte (b : Nat) : Option Nuc :=
  if b = 0 then some .A
  else if b = 1 then some .C
  else if b = 2 then some .G
  else if b = 3 then some .T
  else none

/-- `PackedDna::get` (src/dna/src/lib.rs:104-111): index into the `DNA`
vector (a panic on an out-of-bounds index is modelled by `none`) and
decode the byte found there. -/
def PackedDna.get (self : PackedDna) (idx : Nat) : Option Nuc :=
  (self.DNA[idx]?).bind decodeByte

/-- The logical length of a `PackedDna`: the number of nucleotides it
represents, which in the source's one-byte-per-nucleotide representation
is the length of the `DNA` vector. -/
def PackedDna.len (self : PackedDna) : Nat := self.DNA.length

/-- The uppercase code character of a nucleotide. -/
def nucToChar (n : Nuc) : Nat :=
  match n with
  | .A => 65
  | .C => 67
  | .G => 71
  | .T => 84

/-- The 0-3 code of a nucleotide, as pushed by both construction loops. -/
def nucCode (n : Nuc) : Nat :=
  match n with
  | .A => 0
  | .C => 1
  | .G => 2
  | .T => 3

/-- Modelled from the spec: the round-trip operation `to_text` is absent
from the source sketch; the spec (section 4.2, auxiliary operation)
defines it as a fold over `get(0..length)` decoding each nucleotide back
to its character. -/
def to_text (p : PackedDna) : List Nat :=
  (List.range p.len).filterMap (fun i => (p.get i).map nucToChar)

/-- The eight accepted input characters: upper and lower case A, C, G, T. -/
def validChars : List Nat := [65, 97, 67, 99, 71, 103, 84, 116]

/-- The four accepted uppercased characters. -/
def upperChars : List Nat := [65, 67, 71, 84]

/-- The code pushed by the `from_str` loop for an uppercased character. -/
def upperCode (c : Nat) : Nat :=
  if c = 65 then 0
  else if c = 67 then 1
  else if c = 71 then 2
  else 3

/-! ### Helper lemmas -/

theorem nucEncodeLoop_eq (iter : List Nuc) (v : List Nat) :
    nucEncodeLoop iter v = v ++ iter.map nucCode := by
  induction iter generalizing v with
  | nil => simp [nucEncodeLoop]
  | cons n rest ih =>
    cases n <;> simp [nucEncodeLoop, ih, nucCode]

theorem from_iterator_DNA (s : PackedDna) (iter : List Nuc) :
    (s.from_iterator iter).DNA = iter.map nucCode := by
  simp [PackedDna.from_iterator, nucEncodeLoop_eq]

theorem decodeByte_nucCode (n : Nuc) : decodeByte (nucCode n) = some n := by
  cases n <;> rfl

theorem mem_upperChars_of_valid (c : Nat) (h : c ∈ validChars) :
    toAsciiUppercase c ∈ upperChars := by
  simp only [validChars, List.mem_cons, List.not_mem_nil, or_false] at h
  rcases h with rfl | rfl | rfl | rfl | rfl | rfl | rfl | rfl <;> decide

theorem fromStrLoop_ok (upper chars : List Nat) (v : List Nat)
    (h : ∀ c ∈ chars, c ∈ upperChars) :
    fromStrLoop upper chars v = .ok (v ++ chars.map upperCode) := by
  induction chars generalizing v with
  | nil => simp [fromStrLoop]
  | cons c rest ih =>
    have hc : c ∈ upperChars := h c (List.mem_cons_self c rest)
    have hrest : ∀ x ∈ rest, x ∈ upperChars :=
      fun x hx => h x (List.mem_cons_of_mem c hx)
    simp only [upperChars, List.mem_cons, List.not_mem_nil, or_false] at hc
    rcases hc with rfl | rfl | rfl | rfl <;>
      simp [fromStrLoop, ih _ hrest, upperCode]

theorem fromStrLoop_error (upper chars : List Nat) (v : List Nat)
    (h : ∃ c ∈ chars, c ∉ upperChars) :
    fromStrLoop upper chars v = .error upper := by
  induction chars generalizing v with
  | nil => simp at h
  | cons c rest ih =>
    by_cases hc : c ∈ upperChars
    · have hrest : ∃ x ∈ rest, x ∉ upperChars := by
        rcases h with ⟨x, hx, hinv⟩
        rcases List.mem_cons.mp hx with rfl | hx
        · exact absurd hc hinv
        · exact ⟨x, hx, hinv⟩
      simp only [upperChars, List.mem_cons, List.not_mem_nil, or_false] at hc
      rcases hc with rfl | rfl | rfl | rfl <;> simp [fromStrLoop, ih _ hrest]
    · simp only [upperChars, List.mem_cons, List.not_mem_nil, or_false,
        not_or] at hc
      obtain ⟨h1, h2, h3, h4⟩ := hc
      simp [fromStrLoop, h1, h2, h3, h4]

theorem from_str_ok (s : List Nat) (h : ∀ c ∈ s, c ∈ validChars) :
    PackedDna.from_str s = .ok ⟨(toAsciiUppercaseStr s).map upperCode⟩ := by
  have hval : ∀ c ∈ toAsciiUppercaseStr s, c ∈ upperChars := by
    intro u hu
    rcases List.mem_map.mp hu with ⟨c, hc, rfl⟩
    exact mem_upperChars_of_valid c (h c hc)
  rw [PackedDna.from_str, fromStrLoop_ok _ _ _ hval]
  rfl

/-! ### Claim theorems -/

/-- Claim C1 (code bug): the packing-density invariant fails on the code.
Building from the two-character text "AC" yields a buffer of 2 bytes (one
byte per symbol), while the claim requires ceil(2 / 4) = 1 byte. -/
theorem claim_C1_buffer_not_packed :
    PackedDna.from_str [65, 67] = .ok ⟨[0, 1]⟩ ∧
    (PackedDna.mk [0, 1]).DNA.length = 2 ∧
    ((PackedDna.mk [0, 1]).len + 3) / 4 = 1 ∧
    (PackedDna.mk [0, 1]).DNA.length ≠ ((PackedDna.mk [0, 1]).len + 3) / 4 := by
  refine ⟨rfl, rfl, rfl, ?_⟩
  decide

/-- Claim C2, counterexample: on the input "ACGX T" the parse error of
from_str carries the entire uppercased input string, not the first
invalid character 'X' (88). -/
theorem claim_C2_counterexample :
    PackedDna.from_str [65, 67, 71, 88, 32, 84] = .error [65, 67, 71, 88, 32, 84] ∧
    ([65, 67, 71, 88, 32, 84] : List Nat) ≠ [88] := by
  exact ⟨rfl, by decide⟩

/-- Claim C2 (amended): for every input string containing at least one
invalid character, from_str fails (no partial container is returned) with
a ParseNucError carrying the entire uppercased input string rather than
the single offending character. -/
theorem claim_C2_fail_fast_amended (s : List Nat)
    (h : ∃ c ∈ toAsciiUppercaseStr s, c ∉ upperChars) :
    PackedDna.from_str s = .error (toAsciiUppercaseStr s) := by
  rw [PackedDna.from_str, fromStrLoop_error _ _ _ h]
  rfl

/-- Witness for C2's amended theorem at the spec's example input "ACGX T". -/
theorem claim_C2_fail_fast_witness :
    (∃ c ∈ toAsciiUppercaseStr [65, 67, 71, 120, 32, 84], c ∉ upperChars) ∧
    PackedDna.from_str [65, 67, 71, 120, 32, 84] =
      .error (toAsciiUppercaseStr [65, 67, 71, 120, 32, 84]) :=
  ⟨by decide, claim_C2_fail_fast_amended [65, 67, 71, 120, 32, 84] (by decide)⟩

/-- Claim C6: from_iterator is a total function (it cannot fail), and the
post-state it produces has logical length equal to the input length, with
the input nucleotides' codes stored in arrival order. -/
theorem claim_C6_from_iterator_total (s : PackedDna) (iter : List Nuc) :
    (s.from_iterator iter).len = iter.length ∧
    (s.from_iterator iter).DNA = iter.map nucCode := by
  refine ⟨?_, from_iterator_DNA s iter⟩
  simp [PackedDna.len, from_iterator_DNA]

/-- Claim C9 (code bug): from_iterator mutates the receiver in place.
Calling it on an existing container whose buffer is [0] with input [C]
leaves the receiver with buffer [1]: the existing instance's state is
replaced rather than a fresh instance being produced. -/
theorem claim_C9_from_iterator_mutates :
    (PackedDna.mk [0]).from_iterator [.C] = PackedDna.mk [1] ∧
    PackedDna.mk [1] ≠ PackedDna.mk [0] := by
  exact ⟨rfl, by decide⟩

/-- Claim C3: the single-character parser accepts exactly the eight
letters A a C c G g T t, returning the case-normalized nucleotide, and
fails on every other character with an error carrying that character. -/
theorem claim_C3_parse_char_total (c : Nat) :
    (c ∈ ([65, 97] : List Nat) → nucTryFromChar c = .ok .A) ∧
    (c ∈ ([67, 99] : List Nat) → nucTryFromChar c = .ok .C) ∧
    (c ∈ ([71, 103] : List Nat) → nucTryFromChar c = .ok .G) ∧
    (c ∈ ([84, 116] : List Nat) → nucTryFromChar c = .ok .T) ∧
    (c ∉ validChars → nucTryFromChar c = .error c) := by
  refine ⟨?_, ?_, ?_, ?_, ?_⟩
  · intro h
    rcases List.mem_cons.mp h with rfl | h
    · rfl
    · rcases List.mem_singleton.mp h with rfl
      rfl
  · intro h
    rcases List.mem_cons.mp h with rfl | h
    · rfl
    · rcases List.mem_singleton.mp h with rfl
      rfl
  · intro h
    rcases List.mem_cons.mp h with rfl | h
    · rfl
    · rcases List.mem_singleton.mp h with rfl
      rfl
  · intro h
    rcases List.mem_cons.mp h with rfl | h
    · rfl
    · rcases List.mem_singleton.mp h with rfl
      rfl
  · intro h
    simp only [validChars, List.mem_cons, List.not_mem_nil, or_false,
      not_or] at h
    obtain ⟨n1, n2, n3, n4, n5, n6, n7, n8⟩ := h
    simp only [nucTryFromChar, toAsciiUppercase]
    split_ifs <;> first | rfl | (exfalso; omega)

/-- Witness for C3 at the lowercase letter 'g' (103) and at 'X' (88). -/
theorem claim_C3_parse_char_witness :
    nucTryFromChar 103 = .ok .G ∧ nucTryFromChar 88 = .error 88 :=
  ⟨(claim_C3_parse_char_total 103).2.2.1 (by decide),
   (claim_C3_parse_char_total 88).2.2.2.2 (by decide)⟩

/-- Claim C10: case-insensitivity is ASCII-only. For every character whose
ASCII-uppercase form is not one of 'A' 'C' 'G' 'T', the parser fails with
an error carrying the character exactly as given. -/
theorem claim_C10_ascii_only (c : Nat)
    (h : toAsciiUppercase c ∉ upperChars) :
    nucTryFromChar c = .error c := by
  simp only [upperChars, List.mem_cons, List.not_mem_nil, or_false,
    not_or] at h
  obtain ⟨h1, h2, h3, h4⟩ := h
  simp [nucTryFromChar, h1, h2, h3, h4]

/-- Witness for C10 at the Cyrillic lowercase letter а (U+0430, 1072), a
lookalike of 'a' whose ASCII-uppercase form is itself. -/
theorem claim_C10_ascii_only_witness :
    toAsciiUppercase 1072 ∉ upperChars ∧ nucTryFromChar 1072 = .error 1072 :=
  ⟨by decide, claim_C10_ascii_only 1072 (by decide)⟩

/-- Claim C4: for a container built from a nucleotide sequence, get at
every in-range index returns exactly the nucleotide at that position of
the input, and get at every index at or beyond the logical length fails
(returns none) rather than decoding stray bytes. -/
theorem claim_C4_get_in_bounds (s : PackedDna) (iter : List Nuc) (i : Nat) :
    (∀ h : i < iter.length, (s.from_iterator iter).get i = some (iter.get ⟨i, h⟩)) ∧
    (iter.length ≤ i → (s.from_iterator iter).get i = none) := by
  constructor
  · intro h
    rw [PackedDna.get, from_iterator_DNA]
    rw [List.getElem?_map]
    rw [List.getElem?_eq_getElem h]
    simp [decodeByte_nucCode, List.get_eq_getElem]
  · intro h
    rw [PackedDna.get, from_iterator_DNA]
    rw [List.getElem?_eq_none (by simpa using h)]
    rfl

/-- Witness for C4 on the spec's example [A, C, G, T, A]: index 2 decodes
to G and index 5 fails. -/
theorem claim_C4_get_witness :
    ((PackedDna.mk []).from_iterator [.A, .C, .G, .T, .A]).get 2 = some .G ∧
    ((PackedDna.mk []).from_iterator [.A, .C, .G, .T, .A]).get 5 = none :=
  ⟨(claim_C4_get_in_bounds (PackedDna.mk []) [.A, .C, .G, .T, .A] 2).1 (by decide),
   (claim_C4_get_in_bounds (PackedDna.mk []) [.A, .C, .G, .T, .A] 5).2 (by decide)⟩

/-- Claim C8: on text made only of the eight accepted letters, from_str
succeeds and the container's logical length equals the character count of
the input; the empty string yields length 0 with an empty buffer. -/
theorem claim_C8_length_preserved (s : List Nat) (h : ∀ c ∈ s, c ∈ validChars) :
    (PackedDna.from_str s).map PackedDna.len = .ok s.length ∧
    PackedDna.from_str [] = .ok (PackedDna.mk []) := by
  refine ⟨?_, rfl⟩
  rw [from_str_ok s h]
  simp [Except.map, PackedDna.len, toAsciiUppercaseStr]

/-- Witness for C8 at the input "aCgT". -/
theorem claim_C8_length_witness :
    (∀ c ∈ ([97, 67, 103, 84] : List Nat), c ∈ validChars) ∧
    ((PackedDna.from_str [97, 67, 103, 84]).map PackedDna.len = .ok 4 ∧
      PackedDna.from_str [] = .ok (PackedDna.mk [])) :=
  ⟨by decide, claim_C8_length_preserved [97, 67, 103, 84] (by decide)⟩

theorem range_filterMap_index {α β : Type} (l : List α) (f : α → Option β) :
    (List.range l.length).filterMap (fun i => (l[i]?).bind f) = l.filterMap f := by
  induction l with
  | nil => rfl
  | cons a l ih =>
    have hc : ((fun i => ((a :: l)[i]?).bind f) ∘ Nat.succ) =
        fun i => (l[i]?).bind f := by
      funext i
      simp
    rw [List.length_cons, List.range_succ_eq_map, List.filterMap_cons,
      List.filterMap_map, hc, ih]
    simp [List.filterMap_cons]

theorem to_text_eq (p : PackedDna) :
    to_text p = p.DNA.filterMap (fun b => (decodeByte b).map nucToChar) := by
  have h : (fun i => (p.get i).map nucToChar) =
      fun i => (p.DNA[i]?).bind (fun b => (decodeByte b).map nucToChar) := by
    funext i
    rw [PackedDna.get]
    cases p.DNA[i]? <;> rfl
  rw [to_text, PackedDna.len, h, range_filterMap_index]

theorem decode_upperCode (u : Nat) (h : u ∈ upperChars) :
    (decodeByte (upperCode u)).map nucToChar = some u := by
  simp only [upperChars, List.mem_cons, List.not_mem_nil, or_false] at h
  rcases h with rfl | rfl | rfl | rfl <;> rfl

theorem to_text_upper (us : List Nat) (h : ∀ u ∈ us, u ∈ upperChars) :
    to_text (PackedDna.mk (us.map upperCode)) = us := by
  rw [to_text_eq]
  induction us with
  | nil => rfl
  | cons u rest ih =>
    have hu := decode_upperCode u (h u (List.mem_cons_self u rest))
    have hrest : ∀ x ∈ rest, x ∈ upperChars :=
      fun x hx => h x (List.mem_cons_of_mem u hx)
    simp only [List.map_cons, List.filterMap_cons, hu, ih hrest]

/-- Claim C5: on text made only of the eight accepted letters, from_str
succeeds and decoding the container back to text yields exactly the input
uppercased. -/
theorem claim_C5_round_trip (s : List Nat) (h : ∀ c ∈ s, c ∈ validChars) :
    (PackedDna.from_str s).map to_text = .ok (toAsciiUppercaseStr s) := by
  rw [from_str_ok s h]
  have hup : ∀ u ∈ toAsciiUppercaseStr s, u ∈ upperChars := by
    intro u hu
    rcases List.mem_map.mp hu with ⟨c, hc, rfl⟩
    exact mem_upperChars_of_valid c (h c hc)
  have ht := to_text_upper (toAsciiUppercaseStr s) hup
  simp [Except.map, ht]

/-- Witness for C5 at the input "aCgt". -/
theorem claim_C5_round_trip_witness :
    (∀ c ∈ ([97, 67, 103, 116] : List Nat), c ∈ validChars) ∧
    (PackedDna.from_str [97, 67, 103, 116]).map to_text =
      .ok (toAsciiUppercaseStr [97, 67, 103, 116]) :=
  ⟨by decide, claim_C5_round_trip [97, 67, 103, 116] (by decide)⟩

theorem nucTryFromChar_ok_upper (c : Nat) (n : Nuc)
    (h : nucTryFromChar c = .ok n) : toAsciiUppercase c = nucToChar n := by
  rw [nucTryFromChar] at h
  split_ifs at h with h1 h2 h3 h4
  · injection h with h
    subst h
    simpa [nucToChar] using h1
  · injection h with h
    subst h
    simpa [nucToChar] using h2
  · injection h with h
    subst h
    simpa [nucToChar] using h3
  · injection h with h
    subst h
    simpa [nucToChar] using h4

theorem upperCode_nucToChar (n : Nuc) : upperCode (nucToChar n) = nucCode n := by
  cases n <;> rfl

theorem nucToChar_mem_upperChars (n : Nuc) : nucToChar n ∈ upperChars := by
  cases n <;> decide

theorem forall2_upper_eq (s : List Nat) (nucs : List Nuc)
    (h : List.Forall₂ (fun c n => nucTryFromChar c = .ok n) s nucs) :
    toAsciiUppercaseStr s = nucs.map nucToChar := by
  induction h with
  | nil => rfl
  | cons hcn htail ih =>
    rename_i c n cs ns
    show toAsciiUppercase c :: toAsciiUppercaseStr cs = nucToChar n :: ns.map nucToChar
    rw [nucTryFromChar_ok_upper c n hcn, ih]

theorem from_str_of_forall2 (s : List Nat) (nucs : List Nuc)
    (h : List.Forall₂ (fun c n => nucTryFromChar c = .ok n) s nucs) :
    PackedDna.from_str s = .ok (PackedDna.mk (nucs.map nucCode)) := by
  have hup := forall2_upper_eq s nucs h
  have hval : ∀ u ∈ toAsciiUppercaseStr s, u ∈ upperChars := by
    rw [hup]
    intro u hu
    rcases List.mem_map.mp hu with ⟨n, _, rfl⟩
    exact nucToChar_mem_upperChars n
  rw [PackedDna.from_str, fromStrLoop_ok _ _ _ hval, hup]
  simp only [List.nil_append, List.map_map, Except.map]
  have hfun : upperCode ∘ nucToChar = nucCode := by
    funext n
    exact upperCode_nucToChar n
  rw [hfun]

/-- Claim C7: for a text whose characters each parse to a nucleotide, the
container built by from_str and the container built by from_iterator on
those per-character parses have the same logical length and the same
decoded output at every index. -/
theorem claim_C7_paths_equivalent (s : List Nat) (nucs : List Nuc) (init : PackedDna)
    (h : List.Forall₂ (fun c n => nucTryFromChar c = .ok n) s nucs) :
    (PackedDna.from_str s).map PackedDna.len = .ok ((init.from_iterator nucs).len) ∧
    ∀ i : Nat, (PackedDna.from_str s).map (fun p => p.get i) =
      .ok ((init.from_iterator nucs).get i) := by
  have hs := from_str_of_forall2 s nucs h
  have hfi : init.from_iterator nucs = PackedDna.mk (nucs.map nucCode) := by
    rw [PackedDna.from_iterator, nucEncodeLoop_eq]
    rfl
  constructor
  · rw [hs, hfi]
    rfl
  · intro i
    rw [hs, hfi]
    rfl

/-- Witness for C7 at the text "at" parsing to [A, T], compared at index 1. -/
theorem claim_C7_paths_witness :
    List.Forall₂ (fun c n => nucTryFromChar c = .ok n) [97, 116] [Nuc.A, Nuc.T] ∧
    (PackedDna.from_str [97, 116]).map (fun p => p.get 1) =
      .ok (((PackedDna.mk []).from_iterator [Nuc.A, Nuc.T]).get 1) := by
  have hF : List.Forall₂ (fun c n => nucTryFromChar c = .ok n) [97, 116] [Nuc.A, Nuc.T] :=
    List.Forall₂.cons rfl (List.Forall₂.cons rfl List.Forall₂.nil)
  exact ⟨hF, (claim_C7_paths_equivalent [97, 116] [Nuc.A, Nuc.T] (PackedDna.mk []) hF).2 1⟩
